import Mathlib

/-!
# A verification development for `raft.go`

A shallow embedding of the consensus node of `src/raft.go` and theorems about
its RPC handlers, its reply processing and its driver.

Conventions of the embedding.

* Go's `int` is modelled by `Int`. The program runs on a 64-bit platform, where
  `int` arithmetic wraps modulo `2^64`; every `+`, `-` and `++` of the source
  is therefore followed by `wrapInt`. Comparisons are the comparisons of `Int`.
* A method with a pointer receiver `rf *Raft` becomes a function that takes
  the node state and returns the new one. A method that fills `reply *T`
  takes the reply value it is handed and returns the value it leaves there.
* A send on one of the two channels (`heartbeatC`, `toLeaderC`) is recorded as
  a Boolean of the result: `true` when the method performs the send. Both
  channels are unbuffered, so in the program the send completes only when the
  driver receives (from `heartbeatC` in its Follower case, from `toLeaderC` in
  its Candidate case). `Heartbeat` is the code of the handler, with the
  statements after the send as they run once the send is taken;
  `heartbeatCall` is the handler beside the driver, and has no result when
  the send is not taken.
* The goroutines other than the driver run while the driver waits in a
  `select`: the Candidate case of the driver takes the vote replies that are
  processed between the start of the election and the `select`; the command
  generator a new leader starts is the step `generatorAppend`, whose first
  run belongs to the transition into Leader.
* `rf.nodes` is built by `main` from a slice, so its keys are `0 .. n-1`; it
  is modelled by the list of its values and a peer id is a position in it.
* An index expression that is out of range makes the Go runtime stop the
  program; a function that contains one returns an `Option`.
-/

namespace SimpleRaft

/-! ## Machine integers -/

/-- The smallest value of a 64-bit `int`. -/
def minInt : Int := -9223372036854775808

/-- The largest value of a 64-bit `int`. -/
def maxInt : Int := 9223372036854775807

/-- Reduction of a mathematical integer to the 64-bit two's complement value
that Go's `int` arithmetic produces. -/
def wrapInt (x : Int) : Int :=
  (x + 9223372036854775808) % 18446744073709551616 - 9223372036854775808

/-! ## Data model -/

/-- The struct `node`: a peer of the cluster. -/
structure node where
  connect : Bool
  address : String
deriving DecidableEq, Repr

/-- The type `State` with its three constants `Follower`, `Candidate` and
`Leader` (the values 1, 2 and 3 of the source). -/
inductive State where
  | Follower
  | Candidate
  | Leader
deriving DecidableEq, Repr

/-- The struct `LogEntry`. The command is an `interface{}` in the source; the
program only ever stores formatted strings in it. -/
structure LogEntry where
  LogTerm : Int
  LogIndex : Int
  LogCMD : String
deriving DecidableEq, Repr

/-- The struct `Raft` without its two channels, whose traffic is recorded in
the results of the methods that send on them. -/
structure Raft where
  me : Int
  nodes : List node
  state : State
  currentTerm : Int
  votedFor : Int
  voteCount : Int
  log : List LogEntry
  commitIndex : Int
  lastApplied : Int
  nextIndex : List Int
  matchIndex : List Int
deriving DecidableEq, Repr

/-- The struct `VoteArgs`. -/
structure VoteArgs where
  Term : Int
  CandidateID : Int
deriving DecidableEq, Repr

/-- The struct `VoteReply`; its zero value is `(0, false)`. -/
structure VoteReply where
  Term : Int
  VoteGranted : Bool
deriving DecidableEq, Repr

/-- The struct `HeartbeatArgs`. -/
structure HeartbeatArgs where
  Term : Int
  LeaderID : Int
  PrevLogIndex : Int
  PrevLogTerm : Int
  Entries : List LogEntry
  LeaderCommit : Int
deriving DecidableEq, Repr

/-- The struct `HeartbeatReply`; its zero value is `(false, 0, 0)`. -/
structure HeartbeatReply where
  Success : Bool
  Term : Int
  NextIndex : Int
deriving DecidableEq, Repr

/-- The zero value of `VoteReply`, which is what `var reply VoteReply` and the
RPC server hand to the handler. -/
def zeroVoteReply : VoteReply :=
  { Term := 0, VoteGranted := false }

/-- The zero value of `HeartbeatReply`. -/
def zeroHeartbeatReply : HeartbeatReply :=
  { Success := false, Term := 0, NextIndex := 0 }

/-! ## Log helpers -/

/-- The method `getLastIndex`: 0 for an empty log, else the `LogIndex` of the
last entry. -/
def getLastIndex (rf : Raft) : Int :=
  match rf.log.getLast? with
  | none => 0
  | some e => e.LogIndex

/-- The method `getLastTerm`: 0 for an empty log, else the `LogTerm` of the
last entry. -/
def getLastTerm (rf : Raft) : Int :=
  match rf.log.getLast? with
  | none => 0
  | some e => e.LogTerm

/-! ## Inbound RPC handlers -/

/-- The method `RequestVote`. The result is the node state and the reply after
the call; the error result of the source is always `nil`. -/
def RequestVote (rf : Raft) (args : VoteArgs) (reply : VoteReply) : Raft × VoteReply :=
  if args.Term < rf.currentTerm then
    (rf, { reply with Term := rf.currentTerm, VoteGranted := false })
  else if rf.votedFor = -1 then
    let rf1 := { rf with currentTerm := args.Term }
    let rf2 := { rf1 with votedFor := args.CandidateID }
    (rf2, { reply with Term := rf2.currentTerm, VoteGranted := true })
  else
    (rf, reply)

/-- The code of the method `Heartbeat`, the handler of AppendEntries. The third
component of the result tells whether the handler sent on `heartbeatC`; the
statements after the send are those the handler runs once the driver has
received. Whether the driver receives is not decided here but in
`heartbeatCall`. -/
def Heartbeat (rf : Raft) (args : HeartbeatArgs) (reply : HeartbeatReply) :
    Raft × HeartbeatReply × Bool :=
  if args.Term < rf.currentTerm then
    (rf, { reply with Success := false, Term := rf.currentTerm }, false)
  else if args.Entries.length = 0 then
    (rf, { reply with Success := true, Term := rf.currentTerm }, true)
  else if args.PrevLogIndex > getLastIndex rf then
    (rf, { reply with Success := false, Term := rf.currentTerm,
                      NextIndex := wrapInt (getLastIndex rf + 1) }, true)
  else
    let rf1 := { rf with log := rf.log ++ args.Entries }
    let rf2 := { rf1 with commitIndex := getLastIndex rf1 }
    (rf2, { reply with Success := true, Term := rf2.currentTerm,
                       NextIndex := wrapInt (getLastIndex rf2 + 1) }, true)

/-- A run of `RequestVote` calls handled one after the other, each with the
reply value the caller hands in; the result is the node state after the last. -/
def requestVotes (rf : Raft) (reqs : List (VoteArgs × VoteReply)) : Raft :=
  reqs.foldl (fun s r => (RequestVote s r.1 r.2).1) rf

/-! ## Outbound calls: processing of the reply -/

/-- The assignment `s[i] = v` on a slice: `none` when `i` is out of range. -/
def setIndex (s : List Int) (i : Nat) (v : Int) : Option (List Int) :=
  if i < s.length then some (s.set i v) else none

/-- The method `sendRequestVote` from the point where `client.Call` has
returned: `reply` is the value the call left in `*reply`. The second component
of the result tells whether the method sent on `toLeaderC`. `len(rf.nodes)` is
the length of a Go map, so `len(rf.nodes)/2+1` cannot overflow. -/
def sendRequestVote (rf : Raft) (reply : VoteReply) : Raft × Bool :=
  if reply.Term > rf.currentTerm then
    let rf1 := { rf with currentTerm := reply.Term }
    let rf2 := { rf1 with state := State.Follower }
    ({ rf2 with votedFor := -1 }, false)
  else
    let rf1 := if reply.VoteGranted then { rf with voteCount := wrapInt (rf.voteCount + 1) } else rf
    (rf1, decide (rf1.voteCount ≥ (rf1.nodes.length : Int) / 2 + 1))

/-- The method `sendHeartbeat` from the point where `client.Call` has
returned: `reply` is the value the call left in `*reply`. The result is `none`
when an index expression is out of range. -/
def sendHeartbeat (rf : Raft) (serverID : Nat) (reply : HeartbeatReply) : Option Raft :=
  if reply.Success then
    if reply.NextIndex > 0 then do
      let next ← setIndex rf.nextIndex serverID reply.NextIndex
      let rf1 := { rf with nextIndex := next }
      let v ← rf1.nextIndex[serverID]?
      let m ← setIndex rf1.matchIndex serverID (wrapInt (v - 1))
      pure { rf1 with matchIndex := m }
    else
      some rf
  else if reply.Term > rf.currentTerm then
    let rf1 := { rf with currentTerm := reply.Term }
    let rf2 := { rf1 with state := State.Follower }
    some { rf2 with votedFor := -1 }
  else
    some rf

/-! ## Runs of vote replies -/

/-- A run of vote replies processed one after the other by `sendRequestVote`:
the node state after the last and, for each reply in order, whether its
processing sent on `toLeaderC`. -/
def sendRequestVotes (rf : Raft) : List VoteReply → Raft × List Bool
  | [] => (rf, [])
  | reply :: rest =>
    let r := sendRequestVote rf reply
    let rs := sendRequestVotes r.1 rest
    (rs.1, r.2 :: rs.2)

/-- The number of replies of a run with `VoteGranted = true`. -/
def grantedCount (replies : List VoteReply) : Nat :=
  (replies.filter (fun r => r.VoteGranted)).length

/-! ## The driver loop of `start` -/

/-- The first three statements of the `Candidate` case of the driver loop:
`rf.currentTerm++`, `rf.votedFor = rf.me`, `rf.voteCount = 1`. -/
def candidateStart (rf : Raft) : Raft :=
  let rf1 := { rf with currentTerm := wrapInt (rf.currentTerm + 1) }
  let rf2 := { rf1 with votedFor := rf1.me }
  { rf2 with voteCount := 1 }

/-- What the `select` of the Follower case of the driver loop receives: a
value on `heartbeatC`, or the election timeout. -/
inductive FollowerEvent where
  | heartbeat
  | timeout
deriving DecidableEq, Repr

/-- What the `select` of the Candidate case of the driver loop receives: the
election timeout, or a value on `toLeaderC`. -/
inductive CandidateEvent where
  | timeout
  | toLeader
deriving DecidableEq, Repr

/-- The Follower case of the driver loop. -/
def followerCase (rf : Raft) (ev : FollowerEvent) : Raft :=
  match ev with
  | FollowerEvent.heartbeat => rf
  | FollowerEvent.timeout => { rf with state := State.Candidate }

/-- The body of the loop `for i := range rf.nodes` that a new leader runs:
`rf.nextIndex[i] = 1`, `rf.matchIndex[i] = 0`. The keys are positions of the
two fresh slices, so neither assignment can be out of range. -/
def initPeer (rf : Raft) (i : Nat) : Raft :=
  let rf1 := { rf with nextIndex := rf.nextIndex.set i 1 }
  { rf1 with matchIndex := rf1.matchIndex.set i 0 }

/-- One run of the body of the loop of the command generator, the goroutine a
new leader starts: it appends to `rf.log` the entry with the term
`rf.currentTerm`, the index `i` and the command `user send : i`, for the value
`i` of its counter. -/
def generatorAppend (rf : Raft) (i : Int) : Raft :=
  { rf with log := rf.log ++ [⟨rf.currentTerm, i, "user send : " ++ toString i⟩] }

/-- The `select` of the Candidate case of the driver loop, on the state the
node has when the `select` receives. On the timeout the role is set to
Follower. On a value from `toLeaderC` the role is set to Leader, the two
slices are made afresh with `len(rf.nodes)` zeros, the loop over the peers
fills them, and the command generator is started: its first run, with the
counter at 1, comes before its first sleep and is taken with the branch. -/
def candidateSelect (rf : Raft) (ev : CandidateEvent) : Raft :=
  match ev with
  | CandidateEvent.timeout => { rf with state := State.Follower }
  | CandidateEvent.toLeader =>
    let rf1 := { rf with state := State.Leader }
    let rf2 := { rf1 with nextIndex := List.replicate rf1.nodes.length 0 }
    let rf3 := { rf2 with matchIndex := List.replicate rf2.nodes.length 0 }
    let rf4 := (List.range rf3.nodes.length).foldl initPeer rf3
    generatorAppend rf4 1

/-- The body of the loop of `broadcastHeartbeat` for peer `i`: the request the
leader builds. The result is `none` when `rf.nextIndex[i]`, `rf.log[prevLogIndex]`
or `rf.log[prevLogIndex:]` is out of range. -/
def heartbeatArgs (rf : Raft) (i : Nat) : Option HeartbeatArgs := do
  let next ← rf.nextIndex[i]?
  let args : HeartbeatArgs :=
    { Term := rf.currentTerm, LeaderID := rf.me, PrevLogIndex := 0, PrevLogTerm := 0,
      Entries := [], LeaderCommit := rf.commitIndex }
  let prevLogIndex := wrapInt (next - 1)
  if getLastIndex rf > prevLogIndex then
    if 0 ≤ prevLogIndex then do
      let entry ← rf.log[prevLogIndex.toNat]?
      pure { args with PrevLogIndex := prevLogIndex, PrevLogTerm := entry.LogTerm,
                       Entries := rf.log.drop prevLogIndex.toNat }
    else
      none
  else
    pure args

/-- The method `broadcastHeartbeat`: the requests built for the peers
`0 .. len(rf.nodes)-1`, each of which is then sent by `sendHeartbeat`. -/
def broadcastHeartbeat (rf : Raft) : Option (List HeartbeatArgs) :=
  (List.range rf.nodes.length).mapM (heartbeatArgs rf)

/-- One replication round between a leader and the peer `p`: the request of
`broadcastHeartbeat` for `p`, the peer's `Heartbeat` handler on a zero reply,
and the leader's processing of that reply in `sendHeartbeat`. The result is
the leader after the round, the peer after the round and the reply. -/
def replicationRound (leader follower : Raft) (p : Nat) :
    Option (Raft × Raft × HeartbeatReply) := do
  let args ← heartbeatArgs leader p
  let r := Heartbeat follower args zeroHeartbeatReply
  let leader1 ← sendHeartbeat leader p r.2.1
  pure (leader1, r.1, r.2.1)

/-- The expected shape of a log: the entry at 0-based position `k` has
`LogIndex` `k + 1`. -/
def contiguous (log : List LogEntry) : Prop :=
  ∀ (k : Nat) (e : LogEntry), log[k]? = some e → e.LogIndex = (k : Int) + 1

/-- A check of the shape of a log from position `k` on. -/
def contiguousFrom (k : Nat) : List LogEntry → Bool
  | [] => true
  | e :: rest => e.LogIndex == (k : Int) + 1 && contiguousFrom (k + 1) rest

/-! ## Sample states -/

/-- A node that has voted for peer 2 in term 1 and holds an empty log. -/
def votedNode (role : State) : Raft :=
  { me := 0, nodes := [⟨false, "a"⟩, ⟨false, "b"⟩, ⟨false, "c"⟩], state := role,
    currentTerm := 1, votedFor := 2, voteCount := 0, log := [], commitIndex := 0,
    lastApplied := 0, nextIndex := [], matchIndex := [] }

/-- A fresh node of a three-node cluster as `start` sets it up: term 0, no vote. -/
def freshNode (role : State) : Raft :=
  { me := 0, nodes := [⟨false, "a"⟩, ⟨false, "b"⟩, ⟨false, "c"⟩], state := role,
    currentTerm := 0, votedFor := -1, voteCount := 0, log := [], commitIndex := 0,
    lastApplied := 0, nextIndex := [], matchIndex := [] }

/-- A follower of term 1 whose log holds the single entry of index 1. -/
def oneEntryNode : Raft :=
  { me := 0, nodes := [⟨false, "a"⟩, ⟨false, "b"⟩, ⟨false, "c"⟩], state := State.Follower,
    currentTerm := 1, votedFor := 1, voteCount := 0, log := [⟨1, 1, "user send : 1"⟩],
    commitIndex := 1, lastApplied := 0, nextIndex := [], matchIndex := [] }

/-- An AppendEntries request of term 1 from leader 1 that carries the entry of
index 2 behind `prevLogIndex`. -/
def appendSecond (prevLogIndex : Int) : HeartbeatArgs :=
  { Term := 1, LeaderID := 1, PrevLogIndex := prevLogIndex, PrevLogTerm := 1,
    Entries := [⟨1, 2, "user send : 2"⟩], LeaderCommit := 0 }

/-- A leader of term 1 in a three-node cluster, elected with its own vote and
one more. -/
def leaderNode : Raft :=
  { me := 0, nodes := [⟨false, "a"⟩, ⟨false, "b"⟩, ⟨false, "c"⟩], state := State.Leader,
    currentTerm := 1, votedFor := 0, voteCount := 2, log := [], commitIndex := 0,
    lastApplied := 0, nextIndex := [1, 1, 1], matchIndex := [0, 0, 0] }

/-- A node about to start an election whose term is the largest `int`, as it is
after granting a vote to a request of that term. -/
def lastTermNode : Raft :=
  { me := 0, nodes := [⟨false, "a"⟩, ⟨false, "b"⟩, ⟨false, "c"⟩], state := State.Candidate,
    currentTerm := 9223372036854775807, votedFor := 1, voteCount := 0, log := [],
    commitIndex := 0, lastApplied := 0, nextIndex := [], matchIndex := [] }

/-- A candidate of term 2 in a three-node cluster whose log holds the single
entry of index 1, as a follower that took one entry and then timed out has
it. -/
def candidateWithLog : Raft :=
  { me := 0, nodes := [⟨false, "a"⟩, ⟨false, "b"⟩, ⟨false, "c"⟩], state := State.Candidate,
    currentTerm := 2, votedFor := 0, voteCount := 2, log := [⟨1, 1, "user send : 1"⟩],
    commitIndex := 1, lastApplied := 0, nextIndex := [], matchIndex := [] }

/-- A node of a five-node cluster that has timed out as a follower of term 0
and is about to start its first election. -/
def fiveNode : Raft :=
  { me := 0,
    nodes := [⟨false, "a"⟩, ⟨false, "b"⟩, ⟨false, "c"⟩, ⟨false, "d"⟩, ⟨false, "e"⟩],
    state := State.Candidate, currentTerm := 0, votedFor := -1, voteCount := 0, log := [],
    commitIndex := 0, lastApplied := 0, nextIndex := [], matchIndex := [] }

/-- A leader of term 1 in a three-node cluster whose peer 1 has acknowledged
the entries up to index 4. -/
def progressedLeader : Raft :=
  { me := 0, nodes := [⟨false, "a"⟩, ⟨false, "b"⟩, ⟨false, "c"⟩], state := State.Leader,
    currentTerm := 1, votedFor := 0, voteCount := 2,
    log := [⟨1, 1, "user send : 1"⟩, ⟨1, 2, "user send : 2"⟩, ⟨1, 3, "user send : 3"⟩,
            ⟨1, 4, "user send : 4"⟩],
    commitIndex := 0, lastApplied := 0, nextIndex := [1, 5, 1], matchIndex := [0, 4, 0] }

/-- A leader of term 1 in a three-node cluster that holds two entries; peer 0
stands at `nextIndex` 1, peer 1 at 2 and peer 2 at 3. -/
def twoEntryLeader : Raft :=
  { me := 0, nodes := [⟨false, "a"⟩, ⟨false, "b"⟩, ⟨false, "c"⟩], state := State.Leader,
    currentTerm := 1, votedFor := 0, voteCount := 2,
    log := [⟨1, 1, "user send : 1"⟩, ⟨1, 2, "user send : 2"⟩],
    commitIndex := 0, lastApplied := 0, nextIndex := [1, 2, 3], matchIndex := [0, 1, 2] }

/-- A node of a three-node cluster with the identity `id`, as `start` leaves
it: Follower, term 0, no vote. -/
def startedNode (id : Int) : Raft :=
  { me := id, nodes := [⟨false, "a"⟩, ⟨false, "b"⟩, ⟨false, "c"⟩], state := State.Follower,
    currentTerm := 0, votedFor := -1, voteCount := 0, log := [], commitIndex := 0,
    lastApplied := 0, nextIndex := [], matchIndex := [] }

/-- Node 2 times out as a follower and starts the election of term 1. -/
def runNode2Candidate : Raft :=
  candidateStart (followerCase (startedNode 2) FollowerEvent.timeout)

/-- Node 0 handles the vote request of node 2 for term 1: its state after the
call and the reply, which stays in flight. -/
def runNode0Votes : Raft × VoteReply :=
  RequestVote (startedNode 0) ⟨runNode2Candidate.currentTerm, runNode2Candidate.me⟩
    zeroVoteReply

/-- The election of node 2 times out before any reply has arrived. -/
def runNode2TimedOut : Raft :=
  candidateSelect runNode2Candidate CandidateEvent.timeout

/-- Node 0 times out as a follower and starts the election of term 2. -/
def runNode0Candidate : Raft :=
  candidateStart (followerCase runNode0Votes.1 FollowerEvent.timeout)

/-- Node 1 handles the vote request of node 0 for term 2: its state after the
call and the reply. -/
def runNode1Votes : Raft × VoteReply :=
  RequestVote (startedNode 1) ⟨runNode0Candidate.currentTerm, runNode0Candidate.me⟩
    zeroVoteReply

/-- Node 0 processes the reply of node 1: its state and whether it signals
leadership. -/
def runNode0Counts : Raft × Bool :=
  sendRequestVote runNode0Candidate runNode1Votes.2

/-- The driver of node 0 receives the leadership signal. -/
def runNode0Leader : Raft :=
  candidateSelect runNode0Counts.1 CandidateEvent.toLeader

/-- Node 2 times out as a follower again and starts the election of term 2. -/
def runNode2Again : Raft :=
  candidateStart (followerCase runNode2TimedOut FollowerEvent.timeout)

/-- Node 2 processes the reply that node 0 gave to its request of term 1 and
that arrives only now: its state and whether it signals leadership. -/
def runNode2Counts : Raft × Bool :=
  sendRequestVote runNode2Again runNode0Votes.2

/-- The driver of node 2 receives the leadership signal. -/
def runNode2Leader : Raft :=
  candidateSelect runNode2Counts.1 CandidateEvent.toLeader

/-! ## Theorems -/

/-- C1: when `votedFor` is none (-1) and the request's term is at least
`currentTerm`, `RequestVote` records the candidate in `votedFor`, adopts the
request's term, and replies with that term and `VoteGranted = true`; role, log
and commit index stay as they were. -/
theorem requestVote_grants_when_not_voted (rf : Raft) (args : VoteArgs) (reply : VoteReply)
    (hvote : rf.votedFor = -1) (hterm : rf.currentTerm ≤ args.Term) :
    (RequestVote rf args reply).1.votedFor = args.CandidateID ∧
    (RequestVote rf args reply).1.currentTerm = args.Term ∧
    (RequestVote rf args reply).2.Term = (RequestVote rf args reply).1.currentTerm ∧
    (RequestVote rf args reply).2.VoteGranted = true ∧
    (RequestVote rf args reply).1.state = rf.state ∧
    (RequestVote rf args reply).1.log = rf.log ∧
    (RequestVote rf args reply).1.commitIndex = rf.commitIndex := by
  have hnot : ¬ args.Term < rf.currentTerm := not_lt.mpr hterm
  simp [RequestVote, hnot, hvote]

/-- Witness of C1: a fresh follower of term 0 that is asked for its vote by
candidate 1 in term 1. -/
theorem requestVote_grants_when_not_voted_witness :
    (RequestVote (freshNode State.Follower) ⟨1, 1⟩ zeroVoteReply).1.votedFor = 1 ∧
    (RequestVote (freshNode State.Follower) ⟨1, 1⟩ zeroVoteReply).1.currentTerm = 1 ∧
    (RequestVote (freshNode State.Follower) ⟨1, 1⟩ zeroVoteReply).2.Term =
      (RequestVote (freshNode State.Follower) ⟨1, 1⟩ zeroVoteReply).1.currentTerm ∧
    (RequestVote (freshNode State.Follower) ⟨1, 1⟩ zeroVoteReply).2.VoteGranted = true ∧
    (RequestVote (freshNode State.Follower) ⟨1, 1⟩ zeroVoteReply).1.state = State.Follower ∧
    (RequestVote (freshNode State.Follower) ⟨1, 1⟩ zeroVoteReply).1.log = [] ∧
    (RequestVote (freshNode State.Follower) ⟨1, 1⟩ zeroVoteReply).1.commitIndex = 0 :=
  requestVote_grants_when_not_voted (freshNode State.Follower) ⟨1, 1⟩ zeroVoteReply
    (by decide) (by decide)

/-- C2: a request whose term is below `currentTerm` is rejected by both
handlers: the reply carries `currentTerm` and a negative result, and the node
state is left exactly as it was (the heartbeat handler does not even signal the
driver). -/
theorem stale_term_rejected (rf : Raft) (vargs : VoteArgs) (vreply : VoteReply)
    (hargs : HeartbeatArgs) (hreply : HeartbeatReply)
    (hv : vargs.Term < rf.currentTerm) (hh : hargs.Term < rf.currentTerm) :
    ((RequestVote rf vargs vreply).1 = rf ∧
      (RequestVote rf vargs vreply).2.Term = rf.currentTerm ∧
      (RequestVote rf vargs vreply).2.VoteGranted = false) ∧
    ((Heartbeat rf hargs hreply).1 = rf ∧
      (Heartbeat rf hargs hreply).2.1.Term = rf.currentTerm ∧
      (Heartbeat rf hargs hreply).2.1.Success = false ∧
      (Heartbeat rf hargs hreply).2.2 = false) := by
  simp [RequestVote, Heartbeat, hv, hh]

/-- Witness of C2: a node of term 1 receives a vote request and an
AppendEntries request of term 0. -/
theorem stale_term_rejected_witness :
    ((RequestVote (votedNode State.Leader) ⟨0, 1⟩ zeroVoteReply).1 = votedNode State.Leader ∧
      (RequestVote (votedNode State.Leader) ⟨0, 1⟩ zeroVoteReply).2.Term = 1 ∧
      (RequestVote (votedNode State.Leader) ⟨0, 1⟩ zeroVoteReply).2.VoteGranted = false) ∧
    ((Heartbeat (votedNode State.Leader) ⟨0, 1, 0, 0, [⟨0, 1, "x"⟩], 0⟩ zeroHeartbeatReply).1 =
        votedNode State.Leader ∧
      (Heartbeat (votedNode State.Leader) ⟨0, 1, 0, 0, [⟨0, 1, "x"⟩], 0⟩ zeroHeartbeatReply).2.1.Term
        = 1 ∧
      (Heartbeat (votedNode State.Leader) ⟨0, 1, 0, 0, [⟨0, 1, "x"⟩], 0⟩
        zeroHeartbeatReply).2.1.Success = false ∧
      (Heartbeat (votedNode State.Leader) ⟨0, 1, 0, 0, [⟨0, 1, "x"⟩], 0⟩ zeroHeartbeatReply).2.2
        = false) :=
  stale_term_rejected (votedNode State.Leader) ⟨0, 1⟩ zeroVoteReply
    ⟨0, 1, 0, 0, [⟨0, 1, "x"⟩], 0⟩ zeroHeartbeatReply (by decide) (by decide)

/-- The result of `wrapInt` fits a 64-bit `int`. -/
theorem wrapInt_inRange (x : Int) : minInt ≤ wrapInt x ∧ wrapInt x ≤ maxInt := by
  unfold minInt maxInt wrapInt
  omega

/-- What `Heartbeat` returns on a request that is not stale, carries entries
and whose `PrevLogIndex` does not exceed the last index. -/
theorem heartbeat_accept_eq (rf : Raft) (args : HeartbeatArgs) (reply : HeartbeatReply)
    (hterm : rf.currentTerm ≤ args.Term) (hne : args.Entries ≠ [])
    (hprev : args.PrevLogIndex ≤ getLastIndex rf) :
    Heartbeat rf args reply =
      ({ rf with log := rf.log ++ args.Entries,
                 commitIndex := getLastIndex { rf with log := rf.log ++ args.Entries } },
       { reply with Success := true, Term := rf.currentTerm,
                    NextIndex := wrapInt (getLastIndex { rf with log := rf.log ++ args.Entries } + 1) },
       true) := by
  have hnot : ¬ args.Term < rf.currentTerm := not_lt.mpr hterm
  have hgap : ¬ args.PrevLogIndex > getLastIndex rf := not_lt.mpr hprev
  have hlen : ¬ args.Entries.length = 0 := fun h => hne (List.length_eq_zero.mp h)
  unfold Heartbeat
  rw [if_neg hnot, if_neg hlen, if_neg hgap]
  rfl

/-- What `Heartbeat` returns on a request that is not stale, carries entries
and whose `PrevLogIndex` lies beyond the last index. -/
theorem heartbeat_gap_eq (rf : Raft) (args : HeartbeatArgs) (reply : HeartbeatReply)
    (hterm : rf.currentTerm ≤ args.Term) (hne : args.Entries ≠ [])
    (hprev : getLastIndex rf < args.PrevLogIndex) :
    Heartbeat rf args reply =
      (rf, { reply with Success := false, Term := rf.currentTerm,
                        NextIndex := wrapInt (getLastIndex rf + 1) }, true) := by
  have hnot : ¬ args.Term < rf.currentTerm := not_lt.mpr hterm
  have hlen : ¬ args.Entries.length = 0 := fun h => hne (List.length_eq_zero.mp h)
  have hgap : args.PrevLogIndex > getLastIndex rf := hprev
  unfold Heartbeat
  rw [if_neg hnot, if_neg hlen, if_pos hgap]

/-- C5, as stated, fails: a node of term 1 that has voted for peer 2 is asked
by candidate 3 in term 5; the handler returns the state and the reply as they
were, so the vote is not granted and neither `votedFor` nor `currentTerm`
moves. -/
theorem requestVote_higher_term_counterexample :
    (votedNode State.Follower).currentTerm < 5 ∧
    RequestVote (votedNode State.Follower) ⟨5, 3⟩ zeroVoteReply =
      (votedNode State.Follower, zeroVoteReply) ∧
    (RequestVote (votedNode State.Follower) ⟨5, 3⟩ zeroVoteReply).1.votedFor ≠ 3 ∧
    (RequestVote (votedNode State.Follower) ⟨5, 3⟩ zeroVoteReply).1.currentTerm ≠ 5 ∧
    (RequestVote (votedNode State.Follower) ⟨5, 3⟩ zeroVoteReply).2.VoteGranted ≠ true := by
  decide

/-- C5, amended: on a request whose term exceeds `currentTerm`, the vote is
granted when `votedFor` is none (-1): then `votedFor` becomes the candidate,
`currentTerm` the request's term and the reply is `(request term, true)`. When
`votedFor` is set, the node state is unchanged and the handler does not touch
the `VoteGranted` field of the reply. -/
theorem requestVote_higher_term (rf : Raft) (args : VoteArgs) (reply : VoteReply)
    (hterm : rf.currentTerm < args.Term) :
    (rf.votedFor = -1 →
      (RequestVote rf args reply).1.votedFor = args.CandidateID ∧
      (RequestVote rf args reply).1.currentTerm = args.Term ∧
      (RequestVote rf args reply).2 = ⟨args.Term, true⟩) ∧
    (rf.votedFor ≠ -1 →
      (RequestVote rf args reply).1 = rf ∧
      (RequestVote rf args reply).2.VoteGranted = reply.VoteGranted) := by
  have hnot : ¬ args.Term < rf.currentTerm := not_lt.mpr (le_of_lt hterm)
  constructor
  · intro hvote
    simp [RequestVote, hnot, hvote]
  · intro hvote
    simp [RequestVote, hnot, hvote]

/-- Witness of C5, amended: a fresh follower grants candidate 3 its vote in
term 5, a node that has voted for peer 2 does not. -/
theorem requestVote_higher_term_witness :
    ((RequestVote (freshNode State.Follower) ⟨5, 3⟩ zeroVoteReply).1.votedFor = 3 ∧
      (RequestVote (freshNode State.Follower) ⟨5, 3⟩ zeroVoteReply).1.currentTerm = 5 ∧
      (RequestVote (freshNode State.Follower) ⟨5, 3⟩ zeroVoteReply).2 = ⟨5, true⟩) ∧
    ((RequestVote (votedNode State.Follower) ⟨5, 3⟩ zeroVoteReply).1 = votedNode State.Follower ∧
      (RequestVote (votedNode State.Follower) ⟨5, 3⟩ zeroVoteReply).2.VoteGranted = false) :=
  ⟨(requestVote_higher_term (freshNode State.Follower) ⟨5, 3⟩ zeroVoteReply (by decide)).1
      (by decide),
   (requestVote_higher_term (votedNode State.Follower) ⟨5, 3⟩ zeroVoteReply (by decide)).2
      (by decide)⟩

/-- C6, evaluated on the code: a node of term 1 that has voted for peer 2 is
asked by candidate 1 in term 1 and handed the zero reply. The state is
unchanged and the vote is not granted, but the reply's term is left at 0 and is
not the node's `currentTerm`, which is 1. -/
theorem requestVote_already_voted_leaves_reply_term :
    (votedNode State.Follower).votedFor ≠ -1 ∧
    (votedNode State.Follower).votedFor ≠ 1 ∧
    (votedNode State.Follower).currentTerm = 1 ∧
    (RequestVote (votedNode State.Follower) ⟨1, 1⟩ zeroVoteReply).1 = votedNode State.Follower ∧
    (RequestVote (votedNode State.Follower) ⟨1, 1⟩ zeroVoteReply).2.VoteGranted = false ∧
    (RequestVote (votedNode State.Follower) ⟨1, 1⟩ zeroVoteReply).2.Term = 0 ∧
    (RequestVote (votedNode State.Follower) ⟨1, 1⟩ zeroVoteReply).2.Term ≠
      (votedNode State.Follower).currentTerm := by
  decide

/-- One call of `RequestVote` on a node whose vote is set leaves the vote as it
is. -/
theorem requestVote_keeps_vote (rf : Raft) (args : VoteArgs) (reply : VoteReply)
    (hvote : rf.votedFor ≠ -1) : (RequestVote rf args reply).1.votedFor = rf.votedFor := by
  unfold RequestVote
  rw [if_neg hvote]
  split <;> rfl

/-- C7: once `votedFor` is set (not -1), no sequence of `RequestVote` calls,
whatever their terms, candidates and reply values, changes it. -/
theorem requestVotes_keep_vote (rf : Raft) (reqs : List (VoteArgs × VoteReply))
    (hvote : rf.votedFor ≠ -1) : (requestVotes rf reqs).votedFor = rf.votedFor := by
  induction reqs generalizing rf with
  | nil => rfl
  | cons r rest ih =>
    have hstep : (RequestVote rf r.1 r.2).1.votedFor = rf.votedFor :=
      requestVote_keeps_vote rf r.1 r.2 hvote
    have hnext : (RequestVote rf r.1 r.2).1.votedFor ≠ -1 := by
      rw [hstep]
      exact hvote
    have hrest := ih (RequestVote rf r.1 r.2).1 hnext
    show (requestVotes (RequestVote rf r.1 r.2).1 rest).votedFor = rf.votedFor
    rw [hrest, hstep]

/-- Witness of C7: a node that has voted for peer 2 in term 1 handles a request
of the same term by candidate 1, one of a higher term by candidate 3 and a
stale one by candidate 4; its vote is still for peer 2. -/
theorem requestVotes_keep_vote_witness :
    (requestVotes (votedNode State.Follower)
      [(⟨1, 1⟩, zeroVoteReply), (⟨7, 3⟩, zeroVoteReply), (⟨0, 4⟩, zeroVoteReply)]).votedFor = 2 :=
  requestVotes_keep_vote (votedNode State.Follower)
    [(⟨1, 1⟩, zeroVoteReply), (⟨7, 3⟩, zeroVoteReply), (⟨0, 4⟩, zeroVoteReply)] (by decide)

/-- `RequestVote` never lowers `currentTerm`. -/
theorem requestVote_term_le (rf : Raft) (args : VoteArgs) (reply : VoteReply) :
    rf.currentTerm ≤ (RequestVote rf args reply).1.currentTerm := by
  unfold RequestVote
  split
  · exact le_refl _
  · rename_i hnot
    split
    · exact not_lt.mp hnot
    · exact le_refl _

/-- `Heartbeat` never writes `currentTerm` nor `state`. -/
theorem heartbeat_term_state (rf : Raft) (args : HeartbeatArgs) (reply : HeartbeatReply) :
    (Heartbeat rf args reply).1.currentTerm = rf.currentTerm ∧
    (Heartbeat rf args reply).1.state = rf.state := by
  unfold Heartbeat
  split
  · exact ⟨rfl, rfl⟩
  · split
    · exact ⟨rfl, rfl⟩
    · split <;> exact ⟨rfl, rfl⟩

/-- The reply processing of `sendRequestVote` never lowers `currentTerm`. -/
theorem sendRequestVote_term_le (rf : Raft) (reply : VoteReply) :
    rf.currentTerm ≤ (sendRequestVote rf reply).1.currentTerm := by
  unfold sendRequestVote
  split
  · rename_i hgt
    exact le_of_lt hgt
  · by_cases hg : reply.VoteGranted = true
    · simp [hg]
    · simp [hg]

/-- What the reply processing of `sendHeartbeat` does to `currentTerm` when it
yields a state. -/
theorem sendHeartbeat_term_le (rf rf' : Raft) (serverID : Nat) (reply : HeartbeatReply)
    (hrun : sendHeartbeat rf serverID reply = some rf') : rf.currentTerm ≤ rf'.currentTerm := by
  unfold sendHeartbeat at hrun
  by_cases hs : reply.Success = true
  · rw [if_pos hs] at hrun
    by_cases hn : reply.NextIndex > 0
    · rw [if_pos hn] at hrun
      simp only [setIndex, Option.bind_eq_bind, Option.pure_def] at hrun
      by_cases h1 : serverID < rf.nextIndex.length
      · by_cases h2 : serverID < rf.matchIndex.length
        · simp [h1, h2] at hrun
          rw [← hrun]
        · simp [h1, h2] at hrun
      · simp [h1] at hrun
    · rw [if_neg hn] at hrun
      cases hrun
      exact le_refl _
  · rw [if_neg hs] at hrun
    by_cases ht : reply.Term > rf.currentTerm
    · rw [if_pos ht] at hrun
      cases hrun
      exact le_of_lt ht
    · rw [if_neg ht] at hrun
      cases hrun
      exact le_refl _

/-- The reply processing of `sendHeartbeat` yields no state only when an index
expression is out of range. -/
theorem sendHeartbeat_none (rf : Raft) (serverID : Nat) (reply : HeartbeatReply)
    (hrun : sendHeartbeat rf serverID reply = none) :
    reply.Success = true ∧ 0 < reply.NextIndex ∧
      (rf.nextIndex.length ≤ serverID ∨ rf.matchIndex.length ≤ serverID) := by
  unfold sendHeartbeat at hrun
  by_cases hs : reply.Success = true
  · rw [if_pos hs] at hrun
    by_cases hn : reply.NextIndex > 0
    · rw [if_pos hn] at hrun
      simp only [setIndex, Option.bind_eq_bind, Option.pure_def] at hrun
      by_cases h1 : serverID < rf.nextIndex.length
      · by_cases h2 : serverID < rf.matchIndex.length
        · simp [h1, h2] at hrun
        · exact ⟨hs, hn, Or.inr (not_lt.mp h2)⟩
      · exact ⟨hs, hn, Or.inl (not_lt.mp h1)⟩
    · rw [if_neg hn] at hrun
      cases hrun
  · rw [if_neg hs] at hrun
    by_cases ht : reply.Term > rf.currentTerm
    · rw [if_pos ht] at hrun
      cases hrun
    · rw [if_neg ht] at hrun
      cases hrun

/-- C8, as stated, fails at the driver's candidate-start step: on a node whose
term is the largest `int`, `rf.currentTerm++` wraps to the smallest `int`, which
is below the term before the step. -/
theorem candidateStart_term_counterexample :
    lastTermNode.currentTerm = maxInt ∧
    (candidateStart lastTermNode).currentTerm = minInt ∧
    ¬ lastTermNode.currentTerm ≤ (candidateStart lastTermNode).currentTerm := by
  decide

/-- C8, amended: `currentTerm` never decreases under the `RequestVote` handler,
the `Heartbeat` handler, the reply processing of `sendRequestVote` and the reply
processing of `sendHeartbeat` (which yields a state unless an index expression
is out of range), and it does not decrease under the candidate-start step of
the driver when `currentTerm` is below the largest `int`. -/
theorem currentTerm_never_decreases (rf : Raft) :
    (∀ (args : VoteArgs) (reply : VoteReply),
      rf.currentTerm ≤ (RequestVote rf args reply).1.currentTerm) ∧
    (∀ (args : HeartbeatArgs) (reply : HeartbeatReply),
      rf.currentTerm ≤ (Heartbeat rf args reply).1.currentTerm) ∧
    (∀ (reply : VoteReply), rf.currentTerm ≤ (sendRequestVote rf reply).1.currentTerm) ∧
    (∀ (serverID : Nat) (reply : HeartbeatReply),
      (∀ rf', sendHeartbeat rf serverID reply = some rf' → rf.currentTerm ≤ rf'.currentTerm) ∧
      (sendHeartbeat rf serverID reply = none →
        reply.Success = true ∧ 0 < reply.NextIndex ∧
          (rf.nextIndex.length ≤ serverID ∨ rf.matchIndex.length ≤ serverID))) ∧
    (rf.currentTerm < maxInt → rf.currentTerm ≤ (candidateStart rf).currentTerm) := by
  refine ⟨requestVote_term_le rf, ?_, sendRequestVote_term_le rf, ?_, ?_⟩
  · intro args reply
    exact le_of_eq (heartbeat_term_state rf args reply).1.symm
  · intro serverID reply
    exact ⟨fun rf' hrun => sendHeartbeat_term_le rf rf' serverID reply hrun,
      sendHeartbeat_none rf serverID reply⟩
  · intro hroom
    show rf.currentTerm ≤ wrapInt (rf.currentTerm + 1)
    unfold maxInt at hroom
    unfold wrapInt
    omega

/-- Witness of C8, amended: a leader of term 1 that handles a vote request of
term 4, an AppendEntries request of term 4, a vote reply of term 4, a refusing
heartbeat reply of term 4, or starts an election, never ends below term 1. -/
theorem currentTerm_never_decreases_witness :
    (1 : Int) ≤ (RequestVote leaderNode ⟨4, 2⟩ zeroVoteReply).1.currentTerm ∧
    (1 : Int) ≤ (Heartbeat leaderNode (appendSecond 0) zeroHeartbeatReply).1.currentTerm ∧
    (1 : Int) ≤ (sendRequestVote leaderNode ⟨4, false⟩).1.currentTerm ∧
    (∀ rf', sendHeartbeat leaderNode 1 ⟨false, 4, 0⟩ = some rf' → (1 : Int) ≤ rf'.currentTerm) ∧
    (1 : Int) ≤ (candidateStart leaderNode).currentTerm :=
  have h := currentTerm_never_decreases leaderNode
  ⟨h.1 ⟨4, 2⟩ zeroVoteReply, h.2.1 (appendSecond 0) zeroHeartbeatReply, h.2.2.1 ⟨4, false⟩,
    (h.2.2.2.1 1 ⟨false, 4, 0⟩).1, h.2.2.2.2 (by decide)⟩

/-- C10: a vote reply whose term exceeds `currentTerm`, and a refusing
heartbeat reply whose term exceeds `currentTerm`, make the node adopt the
reply's term, become Follower and clear its vote; nothing else changes, so the
vote reply is not counted, and no leadership signal is sent. -/
theorem reply_higher_term_steps_down (rf : Raft) (vreply : VoteReply) (serverID : Nat)
    (hreply : HeartbeatReply) (hv : rf.currentTerm < vreply.Term)
    (hs : hreply.Success = false) (hh : rf.currentTerm < hreply.Term) :
    ((sendRequestVote rf vreply).1.currentTerm = vreply.Term ∧
      (sendRequestVote rf vreply).1.state = State.Follower ∧
      (sendRequestVote rf vreply).1.votedFor = -1 ∧
      (sendRequestVote rf vreply).1.voteCount = rf.voteCount ∧
      (sendRequestVote rf vreply).2 = false ∧
      (sendRequestVote rf vreply).1 =
        { rf with currentTerm := vreply.Term, state := State.Follower, votedFor := -1 }) ∧
    (∃ rf', sendHeartbeat rf serverID hreply = some rf' ∧
      rf'.currentTerm = hreply.Term ∧ rf'.state = State.Follower ∧ rf'.votedFor = -1 ∧
      rf' = { rf with currentTerm := hreply.Term, state := State.Follower, votedFor := -1 }) := by
  have hvgt : vreply.Term > rf.currentTerm := hv
  have hhgt : hreply.Term > rf.currentTerm := hh
  have hns : ¬ hreply.Success = true := by
    rw [hs]
    decide
  constructor
  · unfold sendRequestVote
    rw [if_pos hvgt]
    exact ⟨rfl, rfl, rfl, rfl, rfl, rfl⟩
  · refine ⟨{ rf with currentTerm := hreply.Term, state := State.Follower, votedFor := -1 },
      ?_, rfl, rfl, rfl, rfl⟩
    unfold sendHeartbeat
    rw [if_neg hns, if_pos hhgt]

/-- Witness of C10: a leader of term 1 processes a vote reply of term 4 and a
refusing heartbeat reply of term 4 from peer 1. -/
theorem reply_higher_term_steps_down_witness :
    ((sendRequestVote leaderNode ⟨4, true⟩).1.currentTerm = 4 ∧
      (sendRequestVote leaderNode ⟨4, true⟩).1.state = State.Follower ∧
      (sendRequestVote leaderNode ⟨4, true⟩).1.votedFor = -1 ∧
      (sendRequestVote leaderNode ⟨4, true⟩).1.voteCount = 2 ∧
      (sendRequestVote leaderNode ⟨4, true⟩).2 = false) ∧
    (∃ rf', sendHeartbeat leaderNode 1 ⟨false, 4, 0⟩ = some rf' ∧
      rf'.currentTerm = 4 ∧ rf'.state = State.Follower ∧ rf'.votedFor = -1) :=
  have h := reply_higher_term_steps_down leaderNode ⟨4, true⟩ 1 ⟨false, 4, 0⟩
    (by decide) rfl (by decide)
  ⟨⟨h.1.1, h.1.2.1, h.1.2.2.1, h.1.2.2.2.1, h.1.2.2.2.2.1⟩,
    h.2.elim fun rf' hrf => ⟨rf', hrf.1, hrf.2.1, hrf.2.2.1, hrf.2.2.2.1⟩⟩

/-- C11, as stated, fails: a follower holding entry 1 accepts a request that
carries entry 2 behind `prevLogIndex = 1`; handling the identical request a
second time is accepted again and appends entry 2 once more, so the log has
three entries after the second handling and two after the first. -/
theorem heartbeat_replay_counterexample :
    (Heartbeat oneEntryNode (appendSecond 1) zeroHeartbeatReply).2.1.Success = true ∧
    (Heartbeat oneEntryNode (appendSecond 1) zeroHeartbeatReply).1.log =
      [⟨1, 1, "user send : 1"⟩, ⟨1, 2, "user send : 2"⟩] ∧
    (Heartbeat (Heartbeat oneEntryNode (appendSecond 1) zeroHeartbeatReply).1 (appendSecond 1)
        zeroHeartbeatReply).1.log =
      [⟨1, 1, "user send : 1"⟩, ⟨1, 2, "user send : 2"⟩, ⟨1, 2, "user send : 2"⟩] ∧
    (Heartbeat (Heartbeat oneEntryNode (appendSecond 1) zeroHeartbeatReply).1 (appendSecond 1)
        zeroHeartbeatReply).1.log ≠
      (Heartbeat oneEntryNode (appendSecond 1) zeroHeartbeatReply).1.log := by
  decide

/-- C11, amended: when a request that is not stale and carries entries is
accepted, the log is the old log followed by the entries; handling the
identical request a second time appends the entries once more whenever its
`PrevLogIndex` does not exceed the last index of the log after the first
handling (the log then differs from the log after the first handling), and
leaves the log as it is after the first handling only when the request is
refused for a gap. -/
theorem heartbeat_replay_appends_again (rf : Raft) (args : HeartbeatArgs)
    (reply reply2 : HeartbeatReply) (hterm : rf.currentTerm ≤ args.Term)
    (hne : args.Entries ≠ []) (hacc : (Heartbeat rf args reply).2.1.Success = true) :
    (Heartbeat rf args reply).1.log = rf.log ++ args.Entries ∧
    (args.PrevLogIndex ≤ getLastIndex (Heartbeat rf args reply).1 →
      (Heartbeat (Heartbeat rf args reply).1 args reply2).1.log =
        rf.log ++ args.Entries ++ args.Entries ∧
      (Heartbeat (Heartbeat rf args reply).1 args reply2).2.1.Success = true ∧
      (Heartbeat (Heartbeat rf args reply).1 args reply2).1.log ≠
        (Heartbeat rf args reply).1.log) ∧
    (getLastIndex (Heartbeat rf args reply).1 < args.PrevLogIndex →
      (Heartbeat (Heartbeat rf args reply).1 args reply2).1.log = rf.log ++ args.Entries ∧
      (Heartbeat (Heartbeat rf args reply).1 args reply2).2.1.Success = false) := by
  have hprev : args.PrevLogIndex ≤ getLastIndex rf := by
    by_contra hgap
    rw [heartbeat_gap_eq rf args reply hterm hne (not_le.mp hgap)] at hacc
    cases hacc
  have hfirst := heartbeat_accept_eq rf args reply hterm hne hprev
  have hterm1 : (Heartbeat rf args reply).1.currentTerm ≤ args.Term := by
    rw [hfirst]
    exact hterm
  have hlog1 : (Heartbeat rf args reply).1.log = rf.log ++ args.Entries := by
    rw [hfirst]
  refine ⟨hlog1, ?_, ?_⟩
  · intro hprev1
    have hsecond := heartbeat_accept_eq (Heartbeat rf args reply).1 args reply2 hterm1 hne hprev1
    rw [hsecond]
    refine ⟨?_, rfl, ?_⟩
    · show (Heartbeat rf args reply).1.log ++ args.Entries = _
      rw [hlog1]
    · show (Heartbeat rf args reply).1.log ++ args.Entries ≠ (Heartbeat rf args reply).1.log
      intro heq
      have hlen := congrArg List.length heq
      rw [List.length_append] at hlen
      have hpos : 0 < args.Entries.length := List.length_pos.mpr hne
      omega
  · intro hgap1
    have hsecond := heartbeat_gap_eq (Heartbeat rf args reply).1 args reply2 hterm1 hne hgap1
    rw [hsecond]
    exact ⟨hlog1, rfl⟩

/-- Witness of C11, amended: a follower holding entry 1 handles twice the
request that carries entry 2 behind `prevLogIndex = 1`. -/
theorem heartbeat_replay_appends_again_witness :
    (Heartbeat oneEntryNode (appendSecond 1) zeroHeartbeatReply).1.log =
      [⟨1, 1, "user send : 1"⟩, ⟨1, 2, "user send : 2"⟩] ∧
    (Heartbeat (Heartbeat oneEntryNode (appendSecond 1) zeroHeartbeatReply).1 (appendSecond 1)
        zeroHeartbeatReply).1.log =
      [⟨1, 1, "user send : 1"⟩, ⟨1, 2, "user send : 2"⟩, ⟨1, 2, "user send : 2"⟩] :=
  have h := heartbeat_replay_appends_again oneEntryNode (appendSecond 1) zeroHeartbeatReply
    zeroHeartbeatReply (by decide) (by decide) (by decide)
  ⟨h.1, (h.2.1 (by decide)).1⟩

/-- A position of a slice after a run of assignments of one value `v` at the
positions `ks`: `v` when the position is among `ks` and in range, else as it
was. -/
theorem getElem?_foldl_set (ks : List Nat) (l : List Int) (v : Int) (p : Nat) :
    (ks.foldl (fun acc i => acc.set i v) l)[p]? =
      if p ∈ ks then (l[p]?).map (fun _ => v) else l[p]? := by
  induction ks generalizing l with
  | nil => simp
  | cons k rest ih =>
    rw [List.foldl_cons, ih (l.set k v)]
    by_cases hk : k = p
    · subst hk
      by_cases hmem : k ∈ rest
      · simp [hmem, List.getElem?_set']
        rfl
      · simp [hmem, List.getElem?_set']
        rfl
    · have hne : p ≠ k := fun h => hk h.symm
      by_cases hmem : p ∈ rest
      · simp [hmem, hk]
      · simp [hmem, hk, hne]

/-- A fresh slice of `n` elements after the assignment of `v` at every
position `0 .. n-1` holds `v` everywhere. -/
theorem foldl_set_range (n : Nat) (v w : Int) :
    (List.range n).foldl (fun acc i => acc.set i v) (List.replicate n w) = List.replicate n v := by
  apply List.ext_getElem?
  intro p
  rw [getElem?_foldl_set]
  by_cases hp : p < n
  · simp [hp]
  · simp [hp, List.getElem?_replicate]

/-- The loop of a new leader over the peers `ks` writes the two slices and
nothing else. -/
theorem foldl_initPeer (ks : List Nat) (rf : Raft) :
    ks.foldl initPeer rf =
      { rf with nextIndex := ks.foldl (fun acc i => acc.set i 1) rf.nextIndex,
                matchIndex := ks.foldl (fun acc i => acc.set i 0) rf.matchIndex } := by
  induction ks generalizing rf with
  | nil => rfl
  | cons k rest ih =>
    rw [List.foldl_cons, ih (initPeer rf k)]
    rfl

/-- The state a node has after the driver received the leadership signal:
the role, the two slices, and the first entry of the command generator. -/
theorem candidateSelect_toLeader (rf : Raft) :
    candidateSelect rf CandidateEvent.toLeader =
      { rf with state := State.Leader,
                nextIndex := List.replicate rf.nodes.length 1,
                matchIndex := List.replicate rf.nodes.length 0,
                log := rf.log ++ [⟨rf.currentTerm, 1, "user send : " ++ toString (1 : Int)⟩] } := by
  unfold candidateSelect
  simp only
  rw [foldl_initPeer]
  simp only [foldl_set_range]
  rfl

/-- C12, as stated, fails: a candidate whose log holds the entry of index 1
receives the leadership signal; every `nextIndex` is set to 1, while the last
index plus one is 2, both for the log it holds when it receives the signal and
for the log it holds after the transition. -/
theorem leader_nextIndex_counterexample :
    getLastIndex candidateWithLog = 1 ∧
    getLastIndex (candidateSelect candidateWithLog CandidateEvent.toLeader) = 1 ∧
    (candidateSelect candidateWithLog CandidateEvent.toLeader).state = State.Leader ∧
    (candidateSelect candidateWithLog CandidateEvent.toLeader).nextIndex = [1, 1, 1] ∧
    (candidateSelect candidateWithLog CandidateEvent.toLeader).matchIndex = [0, 0, 0] ∧
    (candidateSelect candidateWithLog CandidateEvent.toLeader).nextIndex[1]? ≠
      some (getLastIndex candidateWithLog + 1) ∧
    (candidateSelect candidateWithLog CandidateEvent.toLeader).nextIndex[1]? ≠
      some (getLastIndex (candidateSelect candidateWithLog CandidateEvent.toLeader) + 1) := by
  decide

/-- C12, amended: when the driver receives the leadership signal in its
Candidate case, the node becomes Leader with `nextIndex[p] = 1` and
`matchIndex[p] = 0` for every peer `p`, whatever its log; `nextIndex[p]` is
the last index plus one exactly when the last index of the log the node holds
when it receives the signal is 0, as it is for the empty log. -/
theorem leader_indexes_initialised (rf : Raft) (p : Nat) (hp : p < rf.nodes.length) :
    (candidateSelect rf CandidateEvent.toLeader).state = State.Leader ∧
    (candidateSelect rf CandidateEvent.toLeader).nextIndex = List.replicate rf.nodes.length 1 ∧
    (candidateSelect rf CandidateEvent.toLeader).matchIndex = List.replicate rf.nodes.length 0 ∧
    (candidateSelect rf CandidateEvent.toLeader).nextIndex[p]? = some 1 ∧
    (candidateSelect rf CandidateEvent.toLeader).matchIndex[p]? = some 0 ∧
    ((candidateSelect rf CandidateEvent.toLeader).nextIndex[p]? = some (getLastIndex rf + 1) ↔
      getLastIndex rf = 0) := by
  have heq := candidateSelect_toLeader rf
  have hnext : (candidateSelect rf CandidateEvent.toLeader).nextIndex[p]? = some 1 := by
    rw [heq]
    simp [hp]
  refine ⟨?_, ?_, ?_, hnext, ?_, ?_⟩
  · rw [heq]
  · rw [heq]
  · rw [heq]
  · rw [heq]
    simp [hp]
  · rw [hnext]
    constructor
    · intro h
      have h1 : (1 : Int) = getLastIndex rf + 1 := Option.some.inj h
      omega
    · intro h
      rw [h]
      rfl

/-- Witness of C12, amended: a candidate of a three-node cluster with an empty
log receives the leadership signal; peer 2 gets `nextIndex` 1, which is the
last index of that log plus one, and `matchIndex` 0. -/
theorem leader_indexes_initialised_witness :
    (candidateSelect (candidateStart (freshNode State.Candidate)) CandidateEvent.toLeader).state
      = State.Leader ∧
    (candidateSelect (candidateStart (freshNode State.Candidate))
      CandidateEvent.toLeader).nextIndex[2]? = some 1 ∧
    (candidateSelect (candidateStart (freshNode State.Candidate))
      CandidateEvent.toLeader).matchIndex[2]? = some 0 ∧
    (candidateSelect (candidateStart (freshNode State.Candidate))
      CandidateEvent.toLeader).nextIndex[2]? =
      some (getLastIndex (candidateStart (freshNode State.Candidate)) + 1) :=
  have h := leader_indexes_initialised (candidateStart (freshNode State.Candidate)) 2
    (by decide)
  ⟨h.1, h.2.2.2.1, h.2.2.2.2.1, h.2.2.2.2.2.mpr (by decide)⟩

/-- What `sendRequestVote` does with a reply whose term does not exceed
`currentTerm`: it counts the reply when it grants the vote and sends on
`toLeaderC` when the count is at the majority threshold; no other field is
read or written. -/
theorem sendRequestVote_no_higher (rf : Raft) (reply : VoteReply)
    (hterm : reply.Term ≤ rf.currentTerm) :
    sendRequestVote rf reply =
      ({ rf with voteCount :=
          if reply.VoteGranted = true then wrapInt (rf.voteCount + 1) else rf.voteCount },
       decide ((if reply.VoteGranted = true then wrapInt (rf.voteCount + 1) else rf.voteCount) ≥
         (rf.nodes.length : Int) / 2 + 1)) := by
  have hnot : ¬ reply.Term > rf.currentTerm := not_lt.mpr hterm
  unfold sendRequestVote
  rw [if_neg hnot]
  by_cases hg : reply.VoteGranted = true
  · simp [hg]
  · simp [hg]

/-- The count of granted replies of a run that starts with `reply`. -/
theorem grantedCount_cons (reply : VoteReply) (rest : List VoteReply) :
    grantedCount (reply :: rest) =
      (if reply.VoteGranted = true then 1 else 0) + grantedCount rest := by
  unfold grantedCount
  by_cases hg : reply.VoteGranted = true
  · simp [List.filter_cons, hg]
    omega
  · simp [List.filter_cons, hg]

/-- In a run of replies none of which carries a higher term, a step sends on
`toLeaderC` only if the vote count before the run plus the granted replies up
to and including that step reaches the majority threshold. -/
theorem signal_needs_votes (rf : Raft) (replies : List VoteReply) (c : Int) (i : Nat)
    (hlo : minInt ≤ rf.voteCount) (hc : rf.voteCount ≤ c)
    (hterms : ∀ r ∈ replies, r.Term ≤ rf.currentTerm)
    (hsig : (sendRequestVotes rf replies).2[i]? = some true) :
    (rf.nodes.length : Int) / 2 + 1 ≤ c + (grantedCount (replies.take (i + 1)) : Int) := by
  induction replies generalizing rf c i with
  | nil => simp [sendRequestVotes] at hsig
  | cons reply rest ih =>
    have hterm : reply.Term ≤ rf.currentTerm := hterms reply (List.mem_cons_self _ _)
    have hstep := sendRequestVote_no_higher rf reply hterm
    have hwrap : minInt ≤ wrapInt (rf.voteCount + 1) ∧ wrapInt (rf.voteCount + 1) ≤ rf.voteCount + 1 := by
      unfold minInt at hlo
      unfold wrapInt minInt
      omega
    rw [List.take_succ_cons, grantedCount_cons]
    unfold sendRequestVotes at hsig
    rw [hstep] at hsig
    cases i with
    | zero =>
      simp only [List.getElem?_cons_zero, Option.some.injEq, decide_eq_true_eq] at hsig
      have hnn : (0 : Int) ≤ (grantedCount (List.take 0 rest) : Int) := Int.natCast_nonneg _
      by_cases hg : reply.VoteGranted = true
      · simp only [hg, if_true] at hsig ⊢
        push_cast
        omega
      · simp only [hg, Bool.false_eq_true, if_false] at hsig ⊢
        push_cast
        omega
    | succ j =>
      simp only [List.getElem?_cons_succ] at hsig
      have hrest : ∀ r ∈ rest, r.Term ≤ rf.currentTerm :=
        fun r hr => hterms r (List.mem_cons_of_mem _ hr)
      by_cases hg : reply.VoteGranted = true
      · simp only [hg, if_true] at hsig ⊢
        have h := ih { rf with voteCount := wrapInt (rf.voteCount + 1) } (c + 1) j
          hwrap.1 (by show wrapInt (rf.voteCount + 1) ≤ c + 1; omega) hrest hsig
        have hn : ({ rf with voteCount := wrapInt (rf.voteCount + 1) } : Raft).nodes = rf.nodes := rfl
        rw [hn] at h
        push_cast
        omega
      · simp only [hg, Bool.false_eq_true, if_false] at hsig ⊢
        have h := ih { rf with voteCount := rf.voteCount } c j hlo hc hrest hsig
        have hn : ({ rf with voteCount := rf.voteCount } : Raft).nodes = rf.nodes := rfl
        rw [hn] at h
        push_cast
        omega

/-- C13: after the candidate-start step (vote count 1), in a run of vote
replies none of which carries a term above the candidate's, the processing of
the reply at position `i` sends the leadership signal only if one plus the
number of granted replies among the first `i + 1` is at least
`floor(N/2) + 1`, `N` being the cluster size. -/
theorem leadership_needs_majority (rf : Raft) (replies : List VoteReply) (i : Nat)
    (hterms : ∀ r ∈ replies, r.Term ≤ (candidateStart rf).currentTerm)
    (hsig : (sendRequestVotes (candidateStart rf) replies).2[i]? = some true) :
    rf.nodes.length / 2 + 1 ≤ 1 + grantedCount (replies.take (i + 1)) := by
  have hone : (candidateStart rf).voteCount = 1 := rfl
  have hnodes : (candidateStart rf).nodes = rf.nodes := rfl
  have h := signal_needs_votes (candidateStart rf) replies 1 i
    (by rw [hone]; decide) (by rw [hone]) hterms hsig
  rw [hnodes] at h
  omega

/-- Witness of C13: in a five-node cluster the third reply, the second to
grant the vote, is the first whose processing sends the signal; with a single
granted reply no step sends it. -/
theorem leadership_needs_majority_witness :
    fiveNode.nodes.length / 2 + 1 ≤
      1 + grantedCount ([⟨1, true⟩, ⟨0, false⟩, ⟨1, true⟩].take (2 + 1)) ∧
    (sendRequestVotes (candidateStart fiveNode) [⟨1, true⟩, ⟨0, false⟩, ⟨1, true⟩]).2 =
      [false, false, true] ∧
    (sendRequestVotes (candidateStart fiveNode)
      [⟨1, true⟩, ⟨0, false⟩, ⟨0, false⟩, ⟨0, false⟩, ⟨0, false⟩]).2 =
      [false, false, false, false, false] :=
  ⟨leadership_needs_majority fiveNode [⟨1, true⟩, ⟨0, false⟩, ⟨1, true⟩] 2
    (by decide) (by decide), by decide, by decide⟩

/-- C14, as stated, fails: in a three-node cluster the candidate processes,
after its candidate-start step, the two granted replies of its peers; both
steps send the leadership signal, the second after the vote count had already
reached the threshold of 2. -/
theorem leadership_signal_counterexample :
    (candidateStart (freshNode State.Candidate)).nodes.length / 2 + 1 = 2 ∧
    (sendRequestVote (candidateStart (freshNode State.Candidate)) ⟨1, true⟩).1.voteCount = 2 ∧
    (sendRequestVotes (candidateStart (freshNode State.Candidate)) [⟨1, true⟩, ⟨1, true⟩]).2 =
      [true, true] := by
  decide

/-- C14, amended: on a node whose vote count has reached the majority
threshold, every reply of a run whose term does not exceed `currentTerm` sends
the leadership signal again, as long as the vote count stays within the range
of `int`: a run of `n` such replies sends `n` signals. -/
theorem leadership_signal_repeats (rf : Raft) (replies : List VoteReply)
    (hmaj : (rf.nodes.length : Int) / 2 + 1 ≤ rf.voteCount)
    (hroom : rf.voteCount + (replies.length : Int) ≤ maxInt)
    (hterms : ∀ r ∈ replies, r.Term ≤ rf.currentTerm) :
    (sendRequestVotes rf replies).2 = List.replicate replies.length true := by
  induction replies generalizing rf with
  | nil => rfl
  | cons reply rest ih =>
    have hterm : reply.Term ≤ rf.currentTerm := hterms reply (List.mem_cons_self _ _)
    have hrest : ∀ r ∈ rest, r.Term ≤ rf.currentTerm :=
      fun r hr => hterms r (List.mem_cons_of_mem _ hr)
    have hstep := sendRequestVote_no_higher rf reply hterm
    have hlen : ((reply :: rest).length : Int) = (rest.length : Int) + 1 := by
      rw [List.length_cons]
      push_cast
      rfl
    rw [hlen] at hroom
    have hnn : (0 : Int) ≤ (rest.length : Int) := Int.natCast_nonneg _
    have hwrap : wrapInt (rf.voteCount + 1) = rf.voteCount + 1 := by
      unfold maxInt at hroom
      unfold wrapInt
      omega
    unfold sendRequestVotes
    rw [hstep, List.length_cons, List.replicate_succ]
    by_cases hg : reply.VoteGranted = true
    · simp only [hg, if_true, hwrap]
      have h := ih { rf with voteCount := rf.voteCount + 1 }
        (by show (rf.nodes.length : Int) / 2 + 1 ≤ rf.voteCount + 1; omega)
        (by show rf.voteCount + 1 + (rest.length : Int) ≤ maxInt; omega) hrest
      rw [h]
      have hdec : decide (rf.voteCount + 1 ≥ (rf.nodes.length : Int) / 2 + 1) = true :=
        decide_eq_true (by omega)
      rw [hdec]
    · simp only [hg, Bool.false_eq_true, if_false]
      have h := ih { rf with voteCount := rf.voteCount } hmaj
        (by show rf.voteCount + (rest.length : Int) ≤ maxInt; omega) hrest
      rw [h]
      have hdec : decide (rf.voteCount ≥ (rf.nodes.length : Int) / 2 + 1) = true :=
        decide_eq_true hmaj
      rw [hdec]

/-- Witness of C14, amended: the leader of a three-node cluster, elected with
a vote count of 2, processes two more replies of its election, one granting
and one not; both steps send the signal. -/
theorem leadership_signal_repeats_witness :
    (sendRequestVotes leaderNode [⟨1, true⟩, ⟨0, false⟩]).2 = [true, true] :=
  leadership_signal_repeats leaderNode [⟨1, true⟩, ⟨0, false⟩] (by decide) (by decide)
    (by decide)

/-- What `sendHeartbeat` does with a successful reply whose hint is positive,
on a leader that has a `nextIndex` and a `matchIndex` for the peer. -/
theorem sendHeartbeat_success_eq (rf : Raft) (p : Nat) (reply : HeartbeatReply)
    (hs : reply.Success = true) (hpos : 0 < reply.NextIndex)
    (hn : p < rf.nextIndex.length) (hm : p < rf.matchIndex.length) :
    sendHeartbeat rf p reply =
      some { rf with nextIndex := rf.nextIndex.set p reply.NextIndex,
                     matchIndex := rf.matchIndex.set p (wrapInt (reply.NextIndex - 1)) } := by
  have hgt : reply.NextIndex > 0 := hpos
  unfold sendHeartbeat
  rw [if_pos hs, if_pos hgt]
  simp [setIndex, hn, hm]

/-- C16, as stated, fails: a leader whose peer 1 stands at `nextIndex = 5` and
`matchIndex = 4` processes a successful reply of that peer with the hint 2;
both values of the peer move backward, to 2 and 1. -/
theorem sendHeartbeat_backward_counterexample :
    progressedLeader.nextIndex[1]? = some 5 ∧
    progressedLeader.matchIndex[1]? = some 4 ∧
    sendHeartbeat progressedLeader 1 ⟨true, 1, 2⟩ =
      some { progressedLeader with nextIndex := [1, 2, 1], matchIndex := [0, 1, 0] } := by
  decide

/-- C16, amended: on a leader that has a `nextIndex` and a `matchIndex` for
peer `p`, processing a successful reply with a positive hint `h` sets
`nextIndex[p] = h` and `matchIndex[p] = h - 1`, whatever the two values were
before, and touches nothing else; processing a successful reply whose hint is
not positive leaves the state unchanged. The two values therefore do not move
backward exactly when `h` is at least the old `nextIndex[p]` and `h - 1` at
least the old `matchIndex[p]`, or the hint is not positive. -/
theorem sendHeartbeat_success_overwrites (rf : Raft) (p : Nat) (reply : HeartbeatReply)
    (hs : reply.Success = true) (hn : p < rf.nextIndex.length)
    (hm : p < rf.matchIndex.length) :
    (0 < reply.NextIndex →
      ∃ rf', sendHeartbeat rf p reply = some rf' ∧
        rf'.nextIndex[p]? = some reply.NextIndex ∧
        rf'.matchIndex[p]? = some (wrapInt (reply.NextIndex - 1)) ∧
        (reply.NextIndex ≤ maxInt → rf'.matchIndex[p]? = some (reply.NextIndex - 1)) ∧
        rf' = { rf with nextIndex := rf.nextIndex.set p reply.NextIndex,
                        matchIndex := rf.matchIndex.set p (wrapInt (reply.NextIndex - 1)) }) ∧
    (reply.NextIndex ≤ 0 → sendHeartbeat rf p reply = some rf) := by
  constructor
  · intro hpos
    refine ⟨_, sendHeartbeat_success_eq rf p reply hs hpos hn hm, ?_, ?_, ?_, rfl⟩
    · simp [hn]
    · simp [hm]
    · intro hmax
      have hwrap : wrapInt (reply.NextIndex - 1) = reply.NextIndex - 1 := by
        unfold maxInt at hmax
        unfold wrapInt
        omega
      rw [hwrap]
      simp [hm]
  · intro hle
    have hngt : ¬ reply.NextIndex > 0 := not_lt.mpr hle
    unfold sendHeartbeat
    rw [if_pos hs, if_neg hngt]

/-- Witness of C16, amended: the leader whose peer 1 stands at `nextIndex = 5`
processes a successful reply of that peer with the hint 2, and one with the
hint 0. -/
theorem sendHeartbeat_success_overwrites_witness :
    (∃ rf', sendHeartbeat progressedLeader 1 ⟨true, 1, 2⟩ = some rf' ∧
      rf'.nextIndex[1]? = some 2 ∧ rf'.matchIndex[1]? = some 1) ∧
    sendHeartbeat progressedLeader 1 ⟨true, 1, 0⟩ = some progressedLeader :=
  ⟨((sendHeartbeat_success_overwrites progressedLeader 1 ⟨true, 1, 2⟩ rfl (by decide)
      (by decide)).1 (by decide)).elim
      fun rf' h => ⟨rf', h.1, h.2.1, h.2.2.2.1 (by decide)⟩,
    (sendHeartbeat_success_overwrites progressedLeader 1 ⟨true, 1, 0⟩ rfl (by decide)
      (by decide)).2 (by decide)⟩

/-- C17, as stated, fails: a leader of a three-node cluster, elected with a
vote count of 2, processes one more granted reply of its own term; the vote
count becomes 3 and the leadership signal is sent. A follower that processes
a granted reply has its vote count incremented as well. -/
theorem stale_vote_reply_counterexample :
    leaderNode.state ≠ State.Candidate ∧
    (⟨1, true⟩ : VoteReply).Term ≤ leaderNode.currentTerm ∧
    (sendRequestVote leaderNode ⟨1, true⟩).1.voteCount = 3 ∧
    (sendRequestVote leaderNode ⟨1, true⟩).1 ≠ leaderNode ∧
    (sendRequestVote leaderNode ⟨1, true⟩).2 = true ∧
    (votedNode State.Follower).state ≠ State.Candidate ∧
    (sendRequestVote (votedNode State.Follower) ⟨1, true⟩).1.voteCount = 1 := by
  decide

/-- C17, amended: whatever the role of the node, processing a vote reply whose
term does not exceed `currentTerm` writes no field but the vote count, which
is incremented (in `int` arithmetic) when the reply grants the vote and is
unchanged otherwise; the leadership signal is sent exactly when the resulting
vote count is at least `floor(N/2) + 1`. -/
theorem vote_reply_counted_in_any_role (rf : Raft) (reply : VoteReply)
    (hterm : reply.Term ≤ rf.currentTerm) :
    (sendRequestVote rf reply).1 =
      { rf with voteCount :=
          if reply.VoteGranted = true then wrapInt (rf.voteCount + 1) else rf.voteCount } ∧
    (reply.VoteGranted = false → (sendRequestVote rf reply).1 = rf) ∧
    ((sendRequestVote rf reply).2 = true ↔
      (rf.nodes.length : Int) / 2 + 1 ≤ (sendRequestVote rf reply).1.voteCount) := by
  have hstep := sendRequestVote_no_higher rf reply hterm
  rw [hstep]
  refine ⟨rfl, ?_, ?_⟩
  · intro hg
    simp [hg]
  · simp

/-- Witness of C17, amended: the leader of a three-node cluster processes a
granted reply of its own term. -/
theorem vote_reply_counted_in_any_role_witness :
    (sendRequestVote leaderNode ⟨1, true⟩).1 = { leaderNode with voteCount := 3 } ∧
    ((sendRequestVote leaderNode ⟨1, true⟩).2 = true ↔
      (leaderNode.nodes.length : Int) / 2 + 1 ≤ (sendRequestVote leaderNode ⟨1, true⟩).1.voteCount) :=
  have h := vote_reply_counted_in_any_role leaderNode ⟨1, true⟩ (by decide)
  ⟨h.1, h.2.2⟩

/-- The check `contiguousFrom` establishes the shape of a log from its
position on. -/
theorem contiguousFrom_getElem? (k : Nat) (log : List LogEntry)
    (hcheck : contiguousFrom k log = true) (j : Nat) (e : LogEntry)
    (hj : log[j]? = some e) : e.LogIndex = ((k + j : Nat) : Int) + 1 := by
  induction log generalizing k j with
  | nil => simp at hj
  | cons first rest ih =>
    simp only [contiguousFrom, Bool.and_eq_true, beq_iff_eq] at hcheck
    cases j with
    | zero =>
      simp only [List.getElem?_cons_zero, Option.some.injEq] at hj
      rw [← hj, hcheck.1]
      simp
    | succ i =>
      simp only [List.getElem?_cons_succ] at hj
      have h := ih (k + 1) hcheck.2 i hj
      rw [h]
      push_cast
      omega

/-- A log that passes the check from position 0 has the expected shape. -/
theorem contiguous_of_check (log : List LogEntry) (hcheck : contiguousFrom 0 log = true) :
    contiguous log := by
  intro j e hj
  have h := contiguousFrom_getElem? 0 log hcheck j e hj
  rw [h]
  simp

/-- The last index of a log of the expected shape is its length. -/
theorem getLastIndex_of_contiguous (rf : Raft) (hshape : contiguous rf.log) :
    getLastIndex rf = (rf.log.length : Int) := by
  unfold getLastIndex
  rw [List.getLast?_eq_getElem?]
  cases hlast : rf.log[rf.log.length - 1]? with
  | none =>
    have hle : rf.log.length ≤ rf.log.length - 1 := List.getElem?_eq_none_iff.mp hlast
    have hzero : rf.log.length = 0 := by omega
    simp [hzero]
  | some e =>
    have hidx := hshape (rf.log.length - 1) e hlast
    have hlt : rf.log.length - 1 < rf.log.length := by
      obtain ⟨h, _⟩ := List.getElem?_eq_some.mp hlast
      exact h
    show e.LogIndex = _
    rw [hidx]
    omega

/-- A prefix of a log of the expected shape has the expected shape. -/
theorem contiguous_take (log : List LogEntry) (m : Nat) (hshape : contiguous log) :
    contiguous (log.take m) := by
  intro j e hj
  rw [List.getElem?_take] at hj
  by_cases hlt : j < m
  · rw [if_pos hlt] at hj
    exact hshape j e hj
  · rw [if_neg hlt] at hj
    cases hj

/-- In a list whose entry at position `k` has `LogIndex` `k + 1 + off`, the
entries whose `LogIndex` exceeds `n + off` are those from position `n` on. -/
theorem filter_index_eq_drop (log : List LogEntry) (off : Int) (n : Nat)
    (hshape : ∀ (k : Nat) (e : LogEntry), log[k]? = some e → e.LogIndex = (k : Int) + 1 + off) :
    log.filter (fun e => decide (e.LogIndex > (n : Int) + off)) = log.drop n := by
  induction log generalizing off n with
  | nil => simp
  | cons first rest ih =>
    have hfirst : first.LogIndex = 1 + off := by
      have h := hshape 0 first (by simp)
      rw [h]
      simp
    have hrest : ∀ (k : Nat) (e : LogEntry), rest[k]? = some e →
        e.LogIndex = (k : Int) + 1 + (off + 1) := by
      intro k e hk
      have h := hshape (k + 1) e (by simpa using hk)
      rw [h]
      push_cast
      omega
    cases n with
    | zero =>
      have hall : ∀ e ∈ first :: rest, decide (e.LogIndex > ((0 : Nat) : Int) + off) = true := by
        intro e he
        obtain ⟨k, hk⟩ := List.mem_iff_getElem?.mp he
        have h := hshape k e hk
        have hnn : (0 : Int) ≤ (k : Int) := Int.natCast_nonneg _
        apply decide_eq_true
        rw [h]
        push_cast
        omega
      rw [List.drop_zero]
      exact List.filter_eq_self.mpr hall
    | succ m =>
      have hout : decide (first.LogIndex > ((m + 1 : Nat) : Int) + off) = false := by
        apply decide_eq_false
        rw [hfirst]
        push_cast
        omega
      rw [List.filter_cons, hout]
      simp only [Bool.false_eq_true, if_false, List.drop_succ_cons]
      have h := ih (off + 1) m hrest
      rw [← h]
      congr 1
      funext e
      congr 1
      apply propext
      push_cast
      constructor <;> intro hgt <;> omega

/-- The request `broadcastHeartbeat` builds for a peer whose `nextIndex` is
behind the last index, when the position `prevLogIndex` holds an entry. -/
theorem heartbeatArgs_entries (rf : Raft) (p : Nat) (next : Int) (e : LogEntry)
    (hnext : rf.nextIndex[p]? = some next) (hguard : getLastIndex rf > wrapInt (next - 1))
    (hpos : 0 ≤ wrapInt (next - 1)) (hentry : rf.log[(wrapInt (next - 1)).toNat]? = some e) :
    heartbeatArgs rf p =
      some { Term := rf.currentTerm, LeaderID := rf.me, PrevLogIndex := wrapInt (next - 1),
             PrevLogTerm := e.LogTerm, Entries := rf.log.drop (wrapInt (next - 1)).toNat,
             LeaderCommit := rf.commitIndex } := by
  unfold heartbeatArgs
  simp [hnext, hguard, hpos, hentry]

/-- The request `broadcastHeartbeat` builds for a peer whose `nextIndex` is
not behind the last index: a pure heartbeat. -/
theorem heartbeatArgs_pure (rf : Raft) (p : Nat) (next : Int)
    (hnext : rf.nextIndex[p]? = some next) (hguard : ¬ getLastIndex rf > wrapInt (next - 1)) :
    heartbeatArgs rf p =
      some { Term := rf.currentTerm, LeaderID := rf.me, PrevLogIndex := 0, PrevLogTerm := 0,
             Entries := [], LeaderCommit := rf.commitIndex } := by
  unfold heartbeatArgs
  simp [hnext, hguard]

/-- A loop over a list whose body yields a value for every element yields the
list of the values. -/
theorem mapM_option_some {α β : Type} (f : α → Option β) (l : List α)
    (h : ∀ x ∈ l, ∃ y, f x = some y) : ∃ ys, l.mapM f = some ys := by
  induction l with
  | nil => exact ⟨[], rfl⟩
  | cons a rest ih =>
    obtain ⟨y, hy⟩ := h a (List.mem_cons_self _ _)
    obtain ⟨ys, hys⟩ := ih (fun x hx => h x (List.mem_cons_of_mem _ hx))
    refine ⟨y :: ys, ?_⟩
    rw [List.mapM_cons, hy, hys]
    rfl

/-- On a log of the expected shape, a peer whose `nextIndex` is an `int` of at
least 1 and passes the guard of `broadcastHeartbeat` has `prevLogIndex` at a
position of the log. -/
theorem prevLogIndex_in_bounds (rf : Raft) (next : Int) (hshape : contiguous rf.log)
    (hone : 1 ≤ next) (hmax : next ≤ maxInt) (hguard : getLastIndex rf > wrapInt (next - 1)) :
    wrapInt (next - 1) = next - 1 ∧ 0 ≤ next - 1 ∧ (next - 1).toNat < rf.log.length := by
  have hwrap : wrapInt (next - 1) = next - 1 := by
    unfold maxInt at hmax
    unfold wrapInt
    omega
  rw [hwrap, getLastIndex_of_contiguous rf hshape] at hguard
  refine ⟨hwrap, by omega, ?_⟩
  omega

/-- C19: on a leader whose log has the expected shape (position `k` holds
`LogIndex` `k + 1`) and whose `nextIndex` is at least 1 for every peer (and an
`int`), whenever the guard `getLastIndex() > nextIndex[p] - 1` holds for a
peer `p`, `prevLogIndex = nextIndex[p] - 1` is a position of the log, the
request for `p` is built with the term of the entry at that position and with
the slice of the log from that position, and the entries attached are exactly
the entries of the log whose `LogIndex` exceeds `prevLogIndex`; the whole
broadcast builds a request for every peer without an index out of range. -/
theorem broadcastHeartbeat_in_bounds (rf : Raft) (p : Nat) (next : Int)
    (hshape : contiguous rf.log)
    (hpeers : ∀ q, q < rf.nodes.length → ∃ v, rf.nextIndex[q]? = some v ∧ 1 ≤ v ∧ v ≤ maxInt)
    (hp : p < rf.nodes.length) (hnext : rf.nextIndex[p]? = some next)
    (hguard : getLastIndex rf > wrapInt (next - 1)) :
    (0 ≤ next - 1 ∧ (next - 1).toNat < rf.log.length) ∧
    (∃ args e, heartbeatArgs rf p = some args ∧
      rf.log[(next - 1).toNat]? = some e ∧
      args.PrevLogIndex = next - 1 ∧
      args.PrevLogTerm = e.LogTerm ∧
      args.Entries = rf.log.drop (next - 1).toNat ∧
      args.Entries = rf.log.filter (fun x => decide (x.LogIndex > args.PrevLogIndex))) ∧
    (∃ reqs, broadcastHeartbeat rf = some reqs) := by
  obtain ⟨v, hv, hone, hmax⟩ := hpeers p hp
  have hvn : v = next := by
    rw [hnext] at hv
    exact (Option.some.inj hv).symm
  subst hvn
  obtain ⟨hwrap, hpos, hlt⟩ := prevLogIndex_in_bounds rf v hshape hone hmax hguard
  refine ⟨⟨hpos, hlt⟩, ?_, ?_⟩
  · have hentry : rf.log[(wrapInt (v - 1)).toNat]? = some rf.log[(v - 1).toNat] := by
      rw [hwrap]
      exact List.getElem?_eq_getElem hlt
    have hargs := heartbeatArgs_entries rf p v _ hnext hguard (by rw [hwrap]; exact hpos) hentry
    rw [hwrap] at hargs
    refine ⟨_, rf.log[(v - 1).toNat], hargs, List.getElem?_eq_getElem hlt, rfl, rfl, rfl, ?_⟩
    show rf.log.drop (v - 1).toNat = rf.log.filter (fun x => decide (x.LogIndex > v - 1))
    have hfilter := filter_index_eq_drop rf.log 0 (v - 1).toNat
      (fun k e hk => by rw [hshape k e hk]; simp)
    rw [← hfilter]
    have hcast : (((v - 1).toNat : Nat) : Int) + 0 = v - 1 := by
      rw [Int.toNat_of_nonneg hpos]
      simp
    rw [hcast]
  · unfold broadcastHeartbeat
    apply mapM_option_some
    intro q hq
    have hqlt : q < rf.nodes.length := List.mem_range.mp hq
    obtain ⟨w, hw, hwone, hwmax⟩ := hpeers q hqlt
    by_cases hg : getLastIndex rf > wrapInt (w - 1)
    · obtain ⟨hwwrap, hwpos, hwlt⟩ := prevLogIndex_in_bounds rf w hshape hwone hwmax hg
      have hentry : rf.log[(wrapInt (w - 1)).toNat]? = some rf.log[(w - 1).toNat] := by
        rw [hwwrap]
        exact List.getElem?_eq_getElem hwlt
      exact ⟨_, heartbeatArgs_entries rf q w _ hw hg (by rw [hwwrap]; exact hwpos) hentry⟩
    · exact ⟨_, heartbeatArgs_pure rf q w hw hg⟩

/-- Witness of C19: the leader that holds two entries builds for peer 1, whose
`nextIndex` is 2, the request with `prevLogIndex = 1` that carries the entry
of index 2. -/
theorem broadcastHeartbeat_in_bounds_witness :
    ((0 : Int) ≤ 2 - 1 ∧ ((2 : Int) - 1).toNat < twoEntryLeader.log.length) ∧
    (∃ args e, heartbeatArgs twoEntryLeader 1 = some args ∧
      twoEntryLeader.log[((2 : Int) - 1).toNat]? = some e ∧
      args.PrevLogIndex = 2 - 1 ∧
      args.PrevLogTerm = e.LogTerm ∧
      args.Entries = twoEntryLeader.log.drop ((2 : Int) - 1).toNat ∧
      args.Entries = twoEntryLeader.log.filter (fun x => decide (x.LogIndex > args.PrevLogIndex))) ∧
    (∃ reqs, broadcastHeartbeat twoEntryLeader = some reqs) :=
  broadcastHeartbeat_in_bounds twoEntryLeader 1 2
    (contiguous_of_check twoEntryLeader.log (by decide))
    (by
      intro q hq
      have hcases : q = 0 ∨ q = 1 ∨ q = 2 := by
        have hq3 : q < 3 := hq
        omega
      rcases hcases with h | h | h
      · subst h
        exact ⟨1, rfl, by decide, by decide⟩
      · subst h
        exact ⟨2, rfl, by decide, by decide⟩
      · subst h
        exact ⟨3, rfl, by decide, by decide⟩)
    (by decide) rfl (by decide)

/-- What `Heartbeat` returns on a request that is not stale and carries no
entries: the state as it was and a successful reply. -/
theorem heartbeat_pure_eq (rf : Raft) (args : HeartbeatArgs) (reply : HeartbeatReply)
    (hterm : rf.currentTerm ≤ args.Term) (hempty : args.Entries = []) :
    Heartbeat rf args reply =
      (rf, { reply with Success := true, Term := rf.currentTerm }, true) := by
  have hnot : ¬ args.Term < rf.currentTerm := not_lt.mpr hterm
  have hlen : args.Entries.length = 0 := by rw [hempty]; rfl
  unfold Heartbeat
  rw [if_neg hnot, if_pos hlen]

/-- C20: a leader with a log `L` of the expected shape (of a length below the
largest `int`, as every Go slice of entries is) that has `nextIndex[p] = n`
with `1 <= n <= len(L) + 1` and a `matchIndex` for `p`, and a follower whose
term does not exceed the leader's and whose log is the first `n - 1` entries
of `L`: the request `broadcastHeartbeat` builds for `p`, the follower's
`Heartbeat` handler and the leader's processing of the reply in
`sendHeartbeat` all run, the follower's log is `L` afterwards, the reply is
successful and the leader has `nextIndex[p] = len(L) + 1`; when `n <= len(L)`
the leader also has `matchIndex[p] = len(L)` and the follower has
`commitIndex = len(L)`. -/
theorem replication_round_synchronises (leader follower : Raft) (p : Nat) (n : Int)
    (hshape : contiguous leader.log) (hlen : (leader.log.length : Int) < maxInt)
    (hnext : leader.nextIndex[p]? = some n) (hmatch : p < leader.matchIndex.length)
    (hlo : 1 ≤ n) (hhi : n ≤ (leader.log.length : Int) + 1)
    (hterm : follower.currentTerm ≤ leader.currentTerm)
    (hflog : follower.log = leader.log.take (n - 1).toNat) :
    ∃ leader1 follower1 reply,
      replicationRound leader follower p = some (leader1, follower1, reply) ∧
      follower1.log = leader.log ∧
      reply.Success = true ∧
      leader1.nextIndex[p]? = some ((leader.log.length : Int) + 1) ∧
      (n ≤ (leader.log.length : Int) →
        leader1.matchIndex[p]? = some (leader.log.length : Int) ∧
        follower1.commitIndex = (leader.log.length : Int)) := by
  have hlast : getLastIndex leader = (leader.log.length : Int) :=
    getLastIndex_of_contiguous leader hshape
  have hwrap : wrapInt (n - 1) = n - 1 := by
    unfold maxInt at hlen
    unfold wrapInt
    omega
  have hhint : wrapInt ((leader.log.length : Int) + 1) = (leader.log.length : Int) + 1 := by
    unfold maxInt at hlen
    unfold wrapInt
    omega
  have hback : wrapInt ((leader.log.length : Int) + 1 - 1) = (leader.log.length : Int) := by
    unfold maxInt at hlen
    unfold wrapInt
    omega
  have hhintpos : (0 : Int) < (leader.log.length : Int) + 1 := by omega
  have hpn : p < leader.nextIndex.length := by
    obtain ⟨h, _⟩ := List.getElem?_eq_some.mp hnext
    exact h
  have hpos : 0 ≤ n - 1 := by omega
  have hcast : (((n - 1).toNat : Nat) : Int) = n - 1 := Int.toNat_of_nonneg hpos
  by_cases hcase : n ≤ (leader.log.length : Int)
  · -- the leader is ahead of the peer: entries are attached
    have hguard : getLastIndex leader > wrapInt (n - 1) := by
      rw [hlast, hwrap]
      omega
    have hlt : (n - 1).toNat < leader.log.length := by omega
    have hflen : ((min (n - 1).toNat leader.log.length : Nat) : Int) = n - 1 := by omega
    have hne : leader.log.drop (n - 1).toNat ≠ [] := by
      intro hnil
      have hle := List.drop_eq_nil_iff.mp hnil
      omega
    have hentry : leader.log[(wrapInt (n - 1)).toNat]? = some leader.log[(n - 1).toNat] := by
      rw [hwrap]
      exact List.getElem?_eq_getElem hlt
    have hargs := heartbeatArgs_entries leader p n _ hnext hguard
      (by rw [hwrap]; exact hpos) hentry
    rw [hwrap] at hargs
    have hfshape : contiguous follower.log := by
      rw [hflog]
      exact contiguous_take leader.log _ hshape
    have hflast : getLastIndex follower = n - 1 := by
      rw [getLastIndex_of_contiguous follower hfshape, hflog, List.length_take]
      exact hflen
    have hjoin : follower.log ++ leader.log.drop (n - 1).toNat = leader.log := by
      rw [hflog]
      exact List.take_append_drop _ _
    have hnewlast : getLastIndex { follower with log := follower.log ++ leader.log.drop (n - 1).toNat }
        = (leader.log.length : Int) := by
      have hsh : contiguous (follower.log ++ leader.log.drop (n - 1).toNat) := by
        rw [hjoin]
        exact hshape
      rw [getLastIndex_of_contiguous
        { follower with log := follower.log ++ leader.log.drop (n - 1).toNat } hsh]
      show (((follower.log ++ leader.log.drop (n - 1).toNat).length : Nat) : Int) = _
      rw [hjoin]
    have hsend := sendHeartbeat_success_eq leader p
      { zeroHeartbeatReply with Success := true, Term := follower.currentTerm,
                                NextIndex := (leader.log.length : Int) + 1 }
      rfl hhintpos hpn hmatch
    have haccept := heartbeat_accept_eq follower
      { Term := leader.currentTerm, LeaderID := leader.me, PrevLogIndex := n - 1,
        PrevLogTerm := (leader.log[(n - 1).toNat]).LogTerm,
        Entries := leader.log.drop (n - 1).toNat, LeaderCommit := leader.commitIndex }
      zeroHeartbeatReply hterm hne (le_of_eq hflast.symm)
    dsimp only at haccept
    rw [hnewlast, hhint] at haccept
    have hround : replicationRound leader follower p =
        some ({ leader with nextIndex := leader.nextIndex.set p ((leader.log.length : Int) + 1),
                            matchIndex := leader.matchIndex.set p (leader.log.length : Int) },
              { follower with log := follower.log ++ leader.log.drop (n - 1).toNat,
                              commitIndex := (leader.log.length : Int) },
              { zeroHeartbeatReply with Success := true, Term := follower.currentTerm,
                                        NextIndex := (leader.log.length : Int) + 1 }) := by
      unfold replicationRound
      rw [hargs]
      simp only [Option.bind_eq_bind, Option.some_bind, haccept, hsend, hback]
      rfl
    refine ⟨_, _, _, hround, hjoin, rfl, ?_, ?_⟩
    · simp [hpn]
    · intro _
      constructor
      · simp [hmatch]
      · rfl
  · -- the peer is level with the leader: a pure heartbeat
    have hn : n = (leader.log.length : Int) + 1 := by omega
    have hguard : ¬ getLastIndex leader > wrapInt (n - 1) := by
      rw [hlast, hwrap]
      omega
    have htake : leader.log.length ≤ (n - 1).toNat := by omega
    have hargs := heartbeatArgs_pure leader p n hnext hguard
    have hpure := heartbeat_pure_eq follower
      { Term := leader.currentTerm, LeaderID := leader.me, PrevLogIndex := 0, PrevLogTerm := 0,
        Entries := [], LeaderCommit := leader.commitIndex }
      zeroHeartbeatReply hterm rfl
    have hsend : sendHeartbeat leader p
        { zeroHeartbeatReply with Success := true, Term := follower.currentTerm } = some leader := by
      unfold sendHeartbeat
      simp [zeroHeartbeatReply]
    have hfull : follower.log = leader.log := by
      rw [hflog]
      exact List.take_of_length_le htake
    have hround : replicationRound leader follower p =
        some (leader, follower,
              { zeroHeartbeatReply with Success := true, Term := follower.currentTerm }) := by
      unfold replicationRound
      rw [hargs]
      simp only [Option.bind_eq_bind, Option.some_bind, hpure, hsend]
      rfl
    refine ⟨_, _, _, hround, hfull, rfl, ?_, ?_⟩
    · rw [hnext, hn]
    · intro hle
      exact absurd hle hcase

/-- Witness of C20: the leader that holds two entries and has `nextIndex = 2`
for peer 1 runs a round with a follower that holds the first entry. -/
theorem replication_round_synchronises_witness :
    ∃ leader1 follower1 reply,
      replicationRound twoEntryLeader oneEntryNode 1 = some (leader1, follower1, reply) ∧
      follower1.log = twoEntryLeader.log ∧
      reply.Success = true ∧
      leader1.nextIndex[1]? = some 3 ∧
      leader1.matchIndex[1]? = some 2 ∧
      follower1.commitIndex = 2 :=
  (replication_round_synchronises twoEntryLeader oneEntryNode 1 2
    (contiguous_of_check twoEntryLeader.log (by decide)) (by decide) rfl (by decide)
    (by decide) (by decide) (by decide) (by decide)).elim
    fun leader1 h1 => h1.elim fun follower1 h2 => h2.elim fun reply h =>
      ⟨leader1, follower1, reply, h.1, h.2.1, h.2.2.1, h.2.2.2.1,
        (h.2.2.2.2 (by decide)).1, (h.2.2.2.2 (by decide)).2⟩

/-- C18, evaluated on the code: a run of a three-node cluster that uses only
the follower timeout, the candidate start, the candidate timeout, the
`RequestVote` handler, the processing of vote replies and the transition on a
leadership signal, and that ends with node 0 and node 2 both Leader of term 2.
Node 0 grants node 2 its vote for term 1, but the reply is delayed; node 2's
election times out; node 0 wins the election of term 2 with the vote of node
1; node 2 starts the election of term 2 and counts the delayed reply of term
1, which reaches the majority of 2. -/
theorem two_leaders_in_one_term :
    (startedNode 2).state = State.Follower ∧
    (followerCase (startedNode 2) FollowerEvent.timeout).state = State.Candidate ∧
    runNode2Candidate.currentTerm = 1 ∧
    runNode0Votes.2 = ⟨1, true⟩ ∧
    runNode2TimedOut.state = State.Follower ∧
    runNode0Votes.1.state = State.Follower ∧
    (followerCase runNode0Votes.1 FollowerEvent.timeout).state = State.Candidate ∧
    runNode0Candidate.currentTerm = 2 ∧
    runNode1Votes.2 = ⟨2, true⟩ ∧
    runNode0Counts.2 = true ∧
    (followerCase runNode2TimedOut FollowerEvent.timeout).state = State.Candidate ∧
    runNode2Again.currentTerm = 2 ∧
    runNode2Again.voteCount = 1 ∧
    runNode2Counts.1.voteCount = 2 ∧
    runNode2Counts.2 = true ∧
    runNode0Leader.state = State.Leader ∧
    runNode2Leader.state = State.Leader ∧
    runNode0Leader.currentTerm = 2 ∧
    runNode2Leader.currentTerm = 2 ∧
    runNode0Leader.me ≠ runNode2Leader.me := by
  decide

end SimpleRaft
